import Mathlib

/-!
Verification of the hexya model/record engine against its specification.

The Go sources available are the test module (`testmodule`), the model engine
tests, the CommonMixin method declarations (including `Onchange`), the legacy
`Environment` implementation and the UUID field definition.  Pure functions of
these sources are translated directly.  Engine internals that are exercised by
the tests but whose implementation files are not part of the corpus (condition
evaluation, record rules, the method-permission registry, the method layer
dispatcher, record loading and unlinking) are modelled from the specification;
each such definition carries a doc comment starting with `Modelled from the
spec:` naming the missing part.
-/

namespace Hexya

/-- A value stored in a record field: scalar kinds, or a relation value given
by the list of related record ids (the empty list models NULL / no relation). -/
inductive Val where
  | str (s : String)
  | int (i : Int)
  | boolean (b : Bool)
  | ids (l : List Int)
  deriving DecidableEq, Repr

/-- A database row: its id and its field values as an association list. -/
structure Rec where
  id : Int
  vals : List (String × Val)
  deriving DecidableEq, Repr

/-- The ids held by a relation field of a record (empty when the relation is
NULL or the field is absent or non-relational). -/
def Rec.relIds (r : Rec) (f : String) : List Int :=
  match r.vals.lookup f with
  | some (Val.ids l) => l
  | _ => []

/-- Modelled from the spec: the condition builder expression tree
(`Field(path).Operator(value)` leaves combined with And/Or); the builder and
its SQL translation are not in the corpus.  `all` is the empty condition that
matches every row. -/
inductive Cond where
  | all
  | equalsOp (f : String) (v : Val)
  | iContains (f : String) (s : String)
  | isIn (f : String) (l : List Int)
  | isNull (f : String)
  | and (a b : Cond)
  | or (a b : Cond)
  deriving DecidableEq, Repr

/-- Case-insensitive substring test used by the `IContains` operator. -/
def iContainsStr (hay needle : String) : Bool :=
  decide (List.IsInfix (needle.data.map Char.toLower) (hay.data.map Char.toLower))

/-- Modelled from the spec: evaluation of a condition on one row, following
the documented operator semantics: `In` over a relation matches rows whose
relation ids meet the given id list (hence the empty list matches nothing),
`IsNull` matches rows whose relation is empty/NULL. -/
def evalCond : Cond → Rec → Bool
  | Cond.all, _ => true
  | Cond.equalsOp f v, r => (r.vals.lookup f).getD (Val.str "") == v
  | Cond.iContains f s, r =>
    match r.vals.lookup f with
    | some (Val.str t) => iContainsStr t s
    | _ => false
  | Cond.isIn f l, r => (r.relIds f).any (fun i => l.contains i)
  | Cond.isNull f, r => r.relIds f == []
  | Cond.and a b, r => evalCond a r && evalCond b r
  | Cond.or a b, r => evalCond a r || evalCond b r

/-- Modelled from the spec: `Search` filters a collection (here: the rows of
the table) by a condition. -/
def searchWhere (db : List Rec) (c : Cond) : List Rec :=
  db.filter (evalCond c)

theorem searchWhere_isIn_nil (db : List Rec) (f : String) :
    searchWhere db (Cond.isIn f []) = [] := by
  simp [searchWhere, List.filter_eq_nil_iff, evalCond]

theorem mem_searchWhere_isNull (db : List Rec) (f : String) (r : Rec) :
    r ∈ searchWhere db (Cond.isNull f) ↔ r ∈ db ∧ r.relIds f = [] := by
  simp [searchWhere, List.mem_filter, evalCond]

/-- C3: over any collection, a condition built with the `In` operator and an
empty id list matches zero rows, `IsNull` on the same relation field matches
exactly the rows whose relation is empty/NULL, and the two conditions select
different row sets whenever a row with an empty relation exists. -/
theorem c3_in_empty_vs_isNull (db : List Rec) (f : String) :
    searchWhere db (Cond.isIn f []) = [] ∧
    (∀ r : Rec, r ∈ searchWhere db (Cond.isNull f) ↔ r ∈ db ∧ r.relIds f = []) ∧
    ((∃ r ∈ db, r.relIds f = []) →
      searchWhere db (Cond.isNull f) ≠ searchWhere db (Cond.isIn f [])) := by
  refine ⟨searchWhere_isIn_nil db f, fun r => mem_searchWhere_isNull db f r, ?_⟩
  rintro ⟨r, hr, hnull⟩ heq
  have hmem : r ∈ searchWhere db (Cond.isNull f) :=
    (mem_searchWhere_isNull db f r).mpr ⟨hr, hnull⟩
  rw [heq, searchWhere_isIn_nil] at hmem
  exact absurd hmem (List.not_mem_nil r)

/-- Concrete witness for C3: the `Post` table of the tests, one post with no
tags and one with tag 5; `IsNull` selects the former, `In []` selects nothing. -/
theorem c3_in_empty_vs_isNull_witness :
    searchWhere [⟨1, [("Tags", Val.ids [])]⟩, ⟨2, [("Tags", Val.ids [5])]⟩]
        (Cond.isNull "Tags") ≠
      searchWhere [⟨1, [("Tags", Val.ids [])]⟩, ⟨2, [("Tags", Val.ids [5])]⟩]
        (Cond.isIn "Tags" []) :=
  (c3_in_empty_vs_isNull
      [⟨1, [("Tags", Val.ids [])]⟩, ⟨2, [("Tags", Val.ids [5])]⟩] "Tags").2.2
    ⟨⟨1, [("Tags", Val.ids [])]⟩, by decide, by decide⟩

/-- Modelled from the spec: a record collection handle reduced to the ordered
list of record identifiers it holds (the part relevant to reload semantics). -/
structure Collection where
  ids : List Int
  deriving DecidableEq, Repr

/-- `Len` of a collection. -/
def Collection.len (c : Collection) : Nat := c.ids.length

/-- Modelled from the spec: `Unlink` deletes the collection's rows from the
table and returns the number of deleted rows; other collections keep their
(now stale) ids until refreshed. -/
def unlinkRows (db : List Rec) (c : Collection) : List Rec × Int :=
  let remaining := db.filter (fun r => ! c.ids.contains r.id)
  (remaining, (db.length : Int) - (remaining.length : Int))

/-- Modelled from the spec: `ForceLoad` re-reads the collection from the
database, so ids that no longer have a row disappear from the collection. -/
def forceLoad (db : List Rec) (c : Collection) : Collection :=
  ⟨c.ids.filter (fun i => db.any (fun r => r.id == i))⟩

theorem not_mem_unlinkRows_fst (db : List Rec) (c : Collection) (r : Rec)
    (hr : r ∈ (unlinkRows db c).1) : r.id ∉ c.ids := by
  have := (List.mem_filter.mp hr).2
  simpa using this

/-- C4: after `C.Unlink()`, a `ForceLoad()` of `C` yields `Len() == 0`; every
collection holding a subset of the unlinked ids also reloads to `Len() == 0`;
and no unlinked id remains a member of any collection after a forced reload. -/
theorem c4_unlink_forceLoad (db : List Rec) (c : Collection) :
    (forceLoad (unlinkRows db c).1 c).len = 0 ∧
    (∀ d : Collection, d.ids ⊆ c.ids → (forceLoad (unlinkRows db c).1 d).len = 0) ∧
    (∀ (e : Collection) (i : Int), i ∈ c.ids →
      i ∉ (forceLoad (unlinkRows db c).1 e).ids) := by
  have key : ∀ (e : Collection) (i : Int), i ∈ c.ids →
      i ∉ (forceLoad (unlinkRows db c).1 e).ids := by
    intro e i hi hmem
    have hany := (List.mem_filter.mp hmem).2
    rw [List.any_eq_true] at hany
    obtain ⟨r, hr, hid⟩ := hany
    have hrid : r.id = i := by simpa using hid
    exact not_mem_unlinkRows_fst db c r hr (hrid ▸ hi)
  have hsub : ∀ d : Collection, d.ids ⊆ c.ids →
      (forceLoad (unlinkRows db c).1 d).len = 0 := by
    intro d hd
    rw [Collection.len, List.length_eq_zero]
    rw [List.eq_nil_iff_forall_not_mem]
    intro i hmem
    have hid : i ∈ d.ids := (List.mem_filter.mp hmem).1
    exact key d i (hd hid) hmem
  exact ⟨hsub c (fun _ h => h), hsub, key⟩

/-- Concrete witness for C4: deleting users 1 and 2 out of three rows; a
collection holding the subset id 2 reloads to length zero. -/
theorem c4_unlink_forceLoad_witness :
    (forceLoad (unlinkRows [⟨1, []⟩, ⟨2, []⟩, ⟨3, []⟩] ⟨[1, 2]⟩).1 ⟨[2]⟩).len =
      0 :=
  (c4_unlink_forceLoad [⟨1, []⟩, ⟨2, []⟩, ⟨3, []⟩] ⟨[1, 2]⟩).2.1 ⟨[2]⟩
    (by decide)

/-- Field kinds relevant to zero values (scalar kinds and relations). -/
inductive FieldKind where
  | char
  | integer
  | boolean
  | relation
  deriving DecidableEq, Repr

/-- The zero value of a field kind. -/
def zeroVal : FieldKind → Val
  | FieldKind.char => Val.str ""
  | FieldKind.integer => Val.int 0
  | FieldKind.boolean => Val.boolean false
  | FieldKind.relation => Val.ids []

/-- Modelled from the spec: `Get(field)` reads the field of the collection's
first record, auto-loading from the database on a cache miss; on an empty (or
unfetched) collection it returns the field's zero value instead of failing. -/
def getField (db : List Rec) (ft : String → FieldKind) (c : Collection)
    (f : String) : Val :=
  match c.ids with
  | [] => zeroVal (ft f)
  | i :: _ =>
    match db.find? (fun r => r.id == i) with
    | some r => (r.vals.lookup f).getD (zeroVal (ft f))
    | none => zeroVal (ft f)

/-- C7: on an empty collection `Get` returns the field's zero value instead of
failing, and there is a non-empty collection over some database whose `Get`
returns the same zero value — so content alone cannot distinguish "record not
found" from "field holds the zero value"; only `Len() == 0` can. -/
theorem c7_get_empty_returns_zero (db : List Rec) (ft : String → FieldKind)
    (c : Collection) (f : String) (h : c.len = 0) :
    getField db ft c f = zeroVal (ft f) ∧
    ∃ (db2 : List Rec) (c2 : Collection),
      c2.len ≠ 0 ∧ getField db2 ft c2 f = getField db ft c f := by
  have hnil : c.ids = [] := List.length_eq_zero.mp h
  have hempty : getField db ft c f = zeroVal (ft f) := by
    rw [getField, hnil]
  refine ⟨hempty, [⟨1, [(f, zeroVal (ft f))]⟩], ⟨[1]⟩, by simp [Collection.len], ?_⟩
  rw [hempty, getField]
  simp [List.find?]

/-- Concrete witness for C7: reading `Name` on an empty `User` collection
yields the empty string, matching a real user whose `Name` is empty. -/
theorem c7_get_empty_returns_zero_witness :
    getField [] (fun _ => FieldKind.char) ⟨[]⟩ "Name" =
        zeroVal FieldKind.char ∧
      ∃ (db2 : List Rec) (c2 : Collection),
        c2.len ≠ 0 ∧
          getField db2 (fun _ => FieldKind.char) c2 "Name" =
            getField [] (fun _ => FieldKind.char) ⟨[]⟩ "Name" :=
  c7_get_empty_returns_zero [] (fun _ => FieldKind.char) ⟨[]⟩ "Name" rfl

/-- Modelled from the spec: the dynamic security registry: user-to-group
memberships and, for each CRUD method (keyed by model and method name), the
list of groups allowed to execute it.  Grants and revocations mutate this
registry; every call consults the current state. -/
structure SecRegistry where
  membership : List (Int × String)
  allowed : List (String × String)
  deriving DecidableEq, Repr

/-- The superuser identity, which bypasses all permission checks. -/
def superUserID : Int := 1

/-- Modelled from the spec: the per-call execution permission check: the
superuser bypasses; otherwise the acting user must belong to a group in the
method's allow-list, as recorded in the current registry (no caching). -/
def checkExecutionPermission (st : SecRegistry) (uid : Int) (method : String) : Bool :=
  uid == superUserID ||
    st.allowed.any (fun p => p.1 == method && st.membership.contains (uid, p.2))

/-- The permission kinds to which record rules can apply. -/
inductive Perm where
  | read
  | write
  | unlink
  deriving DecidableEq, Repr

/-- A permission bitmask subset over {read, write, unlink}. -/
structure Perms where
  read : Bool
  write : Bool
  unlink : Bool
  deriving DecidableEq, Repr

/-- Whether a permission bitmask includes the given permission. -/
def Perms.hasPerm : Perms → Perm → Bool
  | ps, Perm.read => ps.read
  | ps, Perm.write => ps.write
  | ps, Perm.unlink => ps.unlink

/-- Modelled from the spec: a row-level record rule
(name, group, condition, permission bitmask). -/
structure RecordRule where
  name : String
  group : String
  condition : Cond
  perms : Perms
  deriving DecidableEq, Repr

/-- The error raised when a method call or a row-rule check is denied. -/
inductive PermissionError where
  | notAllowed (uid : Int) (method : String)
  | ruleDenied (recId : Int) (p : Perm)
  deriving DecidableEq, Repr

/-- Modelled from the spec: invoking a CRUD method checks execution permission
against the current registry and raises `PermissionError` on denial. -/
def callCRUD (st : SecRegistry) (uid : Int) (method : String) :
    Except PermissionError Unit :=
  if checkExecutionPermission st uid method then Except.ok ()
  else Except.error (PermissionError.notAllowed uid method)

/-- Modelled from the spec: `AllowGroup` adds a group to a method's allow-list. -/
def allowGroup (st : SecRegistry) (method group : String) : SecRegistry :=
  { st with allowed := (method, group) :: st.allowed }

/-- Modelled from the spec: `RevokeGroup` removes a group from a method's
allow-list. -/
def revokeGroup (st : SecRegistry) (method group : String) : SecRegistry :=
  { st with allowed := st.allowed.filter (fun p => !(p.1 == method && p.2 == group)) }

/-- C5: for a user none of whose groups grant a CRUD method, the call raises
`PermissionError`; after granting a group of the user permission on the method
the same call succeeds; after revoking the grant the call fails again — each
call consults the registry as mutated, with no caching and no restart. -/
theorem c5_grant_revoke_immediate (st : SecRegistry) (uid : Int)
    (method group : String)
    (hsuper : uid ≠ superUserID)
    (hmem : (uid, group) ∈ st.membership)
    (hnone : ∀ g2, (method, g2) ∈ st.allowed → (uid, g2) ∉ st.membership) :
    callCRUD st uid method =
        Except.error (PermissionError.notAllowed uid method) ∧
      callCRUD (allowGroup st method group) uid method = Except.ok () ∧
      callCRUD (revokeGroup (allowGroup st method group) method group) uid method =
        Except.error (PermissionError.notAllowed uid method) := by
  have hnotsup : (uid == superUserID) = false := by
    simpa using hsuper
  have hcont : ∀ (l : List (Int × String)) (a : Int × String),
      l.contains a = true ↔ a ∈ l := by
    intro l a
    show l.elem a = true ↔ a ∈ l
    simp [List.elem_eq_mem]
  have hbase : ∀ l : List (String × String),
      (∀ p ∈ l, p.1 = method → (uid, p.2) ∉ st.membership) →
      checkExecutionPermission ⟨st.membership, l⟩ uid method = false := by
    intro l hl
    rw [checkExecutionPermission]
    simp only [hnotsup, Bool.false_or, List.any_eq_false]
    intro p hp
    simp only [Bool.and_eq_true, beq_iff_eq, not_and]
    intro h1 h2
    exact hl p hp h1 ((hcont _ _).mp h2)
  constructor
  · have h0 : checkExecutionPermission st uid method = false := by
      have := hbase st.allowed (fun p hp hp1 => hnone p.2 (by rwa [← hp1]))
      simpa using this
    simp [callCRUD, h0]
  constructor
  · have h1 : checkExecutionPermission (allowGroup st method group) uid method = true := by
      have hc : st.membership.contains (uid, group) = true := (hcont _ _).mpr hmem
      rw [checkExecutionPermission]
      simp only [allowGroup, List.any_cons]
      simp [hc]
      exact Or.inr (Or.inl hmem)
    simp [callCRUD, h1]
  · have h2 : checkExecutionPermission
        (revokeGroup (allowGroup st method group) method group) uid method = false := by
      have : revokeGroup (allowGroup st method group) method group =
          ⟨st.membership,
            (((method, group) :: st.allowed).filter
              (fun p => !(p.1 == method && p.2 == group)))⟩ := rfl
      rw [this]
      apply hbase
      intro p hp hp1
      have hp2 := List.mem_filter.mp hp
      have hpmem : p ∈ (method, group) :: st.allowed := hp2.1
      rcases List.mem_cons.mp hpmem with hcons | htail
      · exfalso
        rw [hcons] at hp2
        simp at hp2
      · exact hnone p.2 (by rwa [← hp1])
    simp [callCRUD, h2]

/-- Concrete witness for C5: user 2 in `group1`, method `User.Create` with an
initially empty allow-list, as in the creation access-control test. -/
theorem c5_grant_revoke_immediate_witness :
    callCRUD ⟨[(2, "group1")], []⟩ 2 "User.Create" =
        Except.error (PermissionError.notAllowed 2 "User.Create") ∧
      callCRUD (allowGroup ⟨[(2, "group1")], []⟩ "User.Create" "group1") 2
          "User.Create" = Except.ok () ∧
      callCRUD
          (revokeGroup (allowGroup ⟨[(2, "group1")], []⟩ "User.Create" "group1")
            "User.Create" "group1") 2 "User.Create" =
        Except.error (PermissionError.notAllowed 2 "User.Create") :=
  c5_grant_revoke_immediate ⟨[(2, "group1")], []⟩ 2 "User.Create" "group1"
    (by decide) (by decide) (fun g2 hg2 => absurd hg2 (List.not_mem_nil _))

/-- The record rules applying to the requested permission across the acting
user's groups. -/
def matchingRules (rules : List RecordRule) (groups : List String) (p : Perm) :
    List RecordRule :=
  rules.filter (fun r => r.perms.hasPerm p && groups.contains r.group)

/-- Modelled from the spec: the effective row filter for a user and a
requested permission: the logical OR of the conditions of all matching rules
across the user's groups; with no matching rule, rows are not filtered. -/
def effectiveFilter (rules : List RecordRule) (groups : List String) (p : Perm) :
    Cond :=
  match matchingRules rules groups p with
  | [] => Cond.all
  | r :: rest => rest.foldl (fun acc rr => Cond.or acc rr.condition) r.condition

/-- Modelled from the spec: whether the row rules let the acting user touch
this row under the requested permission; the superuser bypasses entirely. -/
def rowRuleAllowed (rules : List RecordRule) (groups : List String) (uid : Int)
    (p : Perm) (r : Rec) : Bool :=
  uid == superUserID || evalCond (effectiveFilter rules groups p) r

/-- Modelled from the spec: a query issued under a permission ANDs the
effective filter into the search condition (except for the superuser). -/
def searchUnder (db : List Rec) (rules : List RecordRule) (groups : List String)
    (uid : Int) (p : Perm) (c : Cond) : List Rec :=
  if uid == superUserID then searchWhere db c
  else searchWhere db (Cond.and c (effectiveFilter rules groups p))

/-- Insert or overwrite a key in an association map. -/
def mapSet (m : List (String × Val)) (k : String) (v : Val) :
    List (String × Val) :=
  if (m.lookup k).isSome then
    m.map (fun p => match p.1 == k with | true => (k, v) | false => p)
  else m ++ [(k, v)]

/-- Apply a write data map to a record's values. -/
def Rec.setVals (r : Rec) (data : List (String × Val)) : Rec :=
  ⟨r.id, data.foldl (fun m kv => mapSet m kv.1 kv.2) r.vals⟩

/-- Modelled from the spec: a direct write addressing a record by id checks
the row rules for the write permission independently of any query, and raises
`PermissionError` when the record does not match the effective filter. -/
def writeByID (db : List Rec) (rules : List RecordRule) (groups : List String)
    (uid : Int) (i : Int) (data : List (String × Val)) :
    Except PermissionError (List Rec) :=
  match db.find? (fun r => r.id == i) with
  | none => Except.ok db
  | some r =>
    if rowRuleAllowed rules groups uid Perm.write r then
      Except.ok (db.map (fun q => if q.id == i then q.setVals data else q))
    else Except.error (PermissionError.ruleDenied i Perm.write)

/-- Modelled from the spec (and the unlink tests): `Unlink` deletes, among the
rows addressed by id, only those matching the effective filter for the unlink
permission, and returns the number of rows actually deleted. -/
def unlinkUnderRules (db : List Rec) (rules : List RecordRule)
    (groups : List String) (uid : Int) (c : Collection) : List Rec × Int :=
  let remaining := db.filter
    (fun r => !(c.ids.contains r.id && rowRuleAllowed rules groups uid Perm.unlink r))
  (remaining, (db.length : Int) - (remaining.length : Int))

theorem evalCond_foldl_or (rest : List RecordRule) (c0 : Cond) (r : Rec) :
    evalCond (rest.foldl (fun acc rr => Cond.or acc rr.condition) c0) r =
      (evalCond c0 r || rest.any (fun rr => evalCond rr.condition r)) := by
  induction rest generalizing c0 with
  | nil => simp
  | cons hd tl ih =>
    rw [List.foldl_cons, ih, List.any_cons]
    simp only [evalCond]
    rw [Bool.or_assoc]

theorem evalCond_effectiveFilter (rules : List RecordRule)
    (groups : List String) (p : Perm) (r : Rec) :
    evalCond (effectiveFilter rules groups p) r = true ↔
      (matchingRules rules groups p = [] ∨
        ∃ rr ∈ matchingRules rules groups p, evalCond rr.condition r = true) := by
  rw [effectiveFilter]
  cases hm : matchingRules rules groups p with
  | nil => simp [evalCond]
  | cons hd tl =>
    rw [evalCond_foldl_or]
    simp only [Bool.or_eq_true, List.any_eq_true]
    constructor
    · rintro (h | ⟨rr, hrr, hrrc⟩)
      · exact Or.inr ⟨hd, List.mem_cons_self hd tl, h⟩
      · exact Or.inr ⟨rr, List.mem_cons_of_mem hd hrr, hrrc⟩
    · rintro (h | ⟨rr, hrr, hrrc⟩)
      · exact absurd h (List.cons_ne_nil hd tl)
      · rcases List.mem_cons.mp hrr with heq | htl
        · exact Or.inl (heq ▸ hrrc)
        · exact Or.inr ⟨rr, htl, hrrc⟩

/-- C1: the effective row filter is the OR of the conditions of the rules
matching the requested permission across the user's groups; it is ANDed into
every query issued under that permission; a record not matching it cannot be
written or unlinked even when addressed directly by id; and rules registered
for a different permission have no effect. -/
theorem c1_record_rules (rules : List RecordRule) (groups : List String)
    (uid : Int) (p : Perm) (db : List Rec) (c : Cond)
    (hsuper : uid ≠ superUserID) :
    (∀ r : Rec, evalCond (effectiveFilter rules groups p) r = true ↔
      (matchingRules rules groups p = [] ∨
        ∃ rr ∈ matchingRules rules groups p, evalCond rr.condition r = true)) ∧
    (∀ r : Rec, r ∈ searchUnder db rules groups uid p c ↔
      (r ∈ db ∧ evalCond c r = true ∧
        evalCond (effectiveFilter rules groups p) r = true)) ∧
    (∀ (i : Int) (r : Rec) (data : List (String × Val)),
      db.find? (fun q => q.id == i) = some r →
      evalCond (effectiveFilter rules groups Perm.write) r = false →
      writeByID db rules groups uid i data =
        Except.error (PermissionError.ruleDenied i Perm.write)) ∧
    (∀ (cl : Collection) (r : Rec), r ∈ db →
      evalCond (effectiveFilter rules groups Perm.unlink) r = false →
      r ∈ (unlinkUnderRules db rules groups uid cl).1) ∧
    (∀ rr : RecordRule, rr.perms.hasPerm p = false →
      effectiveFilter (rr :: rules) groups p = effectiveFilter rules groups p) := by
  have hnotsup : (uid == superUserID) = false := by simpa using hsuper
  refine ⟨fun r => evalCond_effectiveFilter rules groups p r, ?_, ?_, ?_, ?_⟩
  · intro r
    rw [searchUnder, if_neg (by simp [hsuper]), searchWhere, List.mem_filter]
    show _ ↔ r ∈ db ∧ _
    rw [evalCond]
    simp [Bool.and_eq_true, and_assoc]
  · intro i r data hfind hfalse
    have hra : rowRuleAllowed rules groups uid Perm.write r = false := by
      rw [rowRuleAllowed, hnotsup, hfalse]
      rfl
    rw [writeByID, hfind]
    simp [hra]
  · intro cl r hmem hfalse
    have hra : rowRuleAllowed rules groups uid Perm.unlink r = false := by
      rw [rowRuleAllowed, hnotsup, hfalse]
      rfl
    rw [unlinkUnderRules]
    refine List.mem_filter.mpr ⟨hmem, ?_⟩
    simp [hra]
  · intro rr hrp
    rw [effectiveFilter, effectiveFilter, matchingRules, matchingRules,
      List.filter_cons_of_neg]
    simp [hrp]

/-- Concrete witness for C1, mirroring the record-rule tests: user 2 in
`group1`, a read rule `jOnly` (`Name` IContains "j") and a write rule that
never matches; searching under read keeps Jane and John and drops Will. -/
theorem c1_record_rules_witness :
    (searchUnder
        [⟨1, [("Name", Val.str "Jane Smith")]⟩,
          ⟨2, [("Name", Val.str "John Smith")]⟩,
          ⟨3, [("Name", Val.str "Will Smith")]⟩]
        [⟨"jOnly", "group1", Cond.iContains "Name" "j", ⟨true, false, false⟩⟩,
          ⟨"writeRule", "group1", Cond.equalsOp "Name" (Val.str "Nobody"),
            ⟨false, true, false⟩⟩]
        ["group1"] 2 Perm.read Cond.all =
      [⟨1, [("Name", Val.str "Jane Smith")]⟩,
        ⟨2, [("Name", Val.str "John Smith")]⟩]) ∧
    ((⟨3, [("Name", Val.str "Will Smith")]⟩ : Rec) ∈
      searchUnder
        [⟨1, [("Name", Val.str "Jane Smith")]⟩,
          ⟨2, [("Name", Val.str "John Smith")]⟩,
          ⟨3, [("Name", Val.str "Will Smith")]⟩]
        [⟨"jOnly", "group1", Cond.iContains "Name" "j", ⟨true, false, false⟩⟩,
          ⟨"writeRule", "group1", Cond.equalsOp "Name" (Val.str "Nobody"),
            ⟨false, true, false⟩⟩]
        ["group1"] 2 Perm.read Cond.all ↔
      ((⟨3, [("Name", Val.str "Will Smith")]⟩ : Rec) ∈
          [⟨1, [("Name", Val.str "Jane Smith")]⟩,
            ⟨2, [("Name", Val.str "John Smith")]⟩,
            (⟨3, [("Name", Val.str "Will Smith")]⟩ : Rec)] ∧
        evalCond Cond.all ⟨3, [("Name", Val.str "Will Smith")]⟩ = true ∧
        evalCond
            (effectiveFilter
              [⟨"jOnly", "group1", Cond.iContains "Name" "j", ⟨true, false, false⟩⟩,
                ⟨"writeRule", "group1", Cond.equalsOp "Name" (Val.str "Nobody"),
                  ⟨false, true, false⟩⟩]
              ["group1"] Perm.read)
            ⟨3, [("Name", Val.str "Will Smith")]⟩ = true)) := by
  constructor
  · decide
  · exact ((c1_record_rules
      [⟨"jOnly", "group1", Cond.iContains "Name" "j", ⟨true, false, false⟩⟩,
        ⟨"writeRule", "group1", Cond.equalsOp "Name" (Val.str "Nobody"),
          ⟨false, true, false⟩⟩]
      ["group1"] 2 Perm.read
      [⟨1, [("Name", Val.str "Jane Smith")]⟩,
        ⟨2, [("Name", Val.str "John Smith")]⟩,
        ⟨3, [("Name", Val.str "Will Smith")]⟩]
      Cond.all (by decide)).2.1 ⟨3, [("Name", Val.str "Will Smith")]⟩)

/-- The error raised when a layer with no layer below it invokes `Super`. -/
inductive DispatchError where
  | noSuperLayer
  deriving DecidableEq, Repr

/-- A method layer: a function receiving the `Super` continuation (the part of
the stack below this layer) along with the method argument. -/
def Layer (α β : Type) : Type :=
  (α → Except DispatchError β) → α → Except DispatchError β

/-- Modelled from the spec: the method layer dispatcher.  A stack is listed
outermost layer first; invoking the method executes the head layer with
`Super` bound to the rest of the stack, so each layer's `Super` reaches the
layer immediately below it; below the base (innermost) layer there is nothing,
and invoking `Super` there is an error. -/
def runStack {α β : Type} : List (Layer α β) → α → Except DispatchError β
  | [], _ => Except.error DispatchError.noSuperLayer
  | l :: below, a => l (runStack below) a

/-- `DecorateEmail` base layer, from the source: wraps the email in angle
brackets. -/
def decorateEmailBase : Layer String String :=
  fun _ email => Except.ok ("<" ++ email ++ ">")

/-- `DecorateEmail` extension layer, from the source: calls `Super` and wraps
the result in square brackets. -/
def decorateEmailExtension : Layer String String :=
  fun sup email => do
    let res ← sup email
    Except.ok ("[" ++ res ++ "]")

/-- The `DecorateEmail` method: its declared base layer under its extension. -/
def decorateEmail : String → Except DispatchError String :=
  runStack [decorateEmailExtension, decorateEmailBase]

/-- An extension layer that records its marker and then calls `Super`,
matching the layer-stack test pattern of the spec. -/
def markerLayer (m : String) : Layer Unit (List String) :=
  fun sup _ => do
    let r ← sup ()
    Except.ok (m :: r)

/-- A base layer that records its marker and does not call `Super`. -/
def baseMarkerLayer (m : String) : Layer Unit (List String) :=
  fun _ _ => Except.ok [m]

/-- A stack of marker extension layers (outermost first) over a marker base
layer. -/
def markerStack (exts : List String) (base : String) :
    List (Layer Unit (List String)) :=
  exts.map markerLayer ++ [baseMarkerLayer base]

theorem runStack_markerStack (exts : List String) (base : String) :
    runStack (markerStack exts base) () = Except.ok (exts ++ [base]) := by
  induction exts with
  | nil => rfl
  | cons m rest ih =>
    show (do
      let r ← runStack (markerStack rest base) ()
      Except.ok (m :: r)) = Except.ok (m :: (rest ++ [base]))
    rw [ih]
    rfl

/-- C2: invoking a method executes the outermost layer; each layer's `Super`
reaches the layer immediately below it, so the N extension layers and the base
layer run exactly once each, in strict nesting order (witnessed by the marker
trace listing every layer outermost-first); invoking `Super` from the base
layer (i.e. dispatching an empty remaining stack) is an error; and the
two-layer `DecorateEmail` stack of the source produces the nested decoration. -/
theorem c2_layered_dispatch (exts : List String) (base : String) (email : String) :
    runStack (markerStack exts base) () = Except.ok (exts ++ [base]) ∧
    runStack ([] : List (Layer Unit (List String))) () =
      Except.error DispatchError.noSuperLayer ∧
    runStack [(fun sup a => sup a : Layer Unit (List String))] () =
      Except.error DispatchError.noSuperLayer ∧
    decorateEmail email = Except.ok ("[" ++ ("<" ++ email ++ ">") ++ "]") :=
  ⟨runStack_markerStack exts base, rfl, rfl, rfl⟩

mutual

/-- `RecursiveMethod` as invoked on a record set: the extension layer from the
source runs first (it brackets the result and calls `Super`); self-dispatch
from the base layer re-enters here, at the outermost layer.  The second
component counts how many times the extension layer has executed. -/
def recursiveMethodCall (depth : Nat) (result : String) : String × Nat :=
  let r := "> " ++ result ++ " <"
  let p := recursiveMethodBase depth r
  (p.1, p.2 + 1)
termination_by (depth, 1)

/-- `RecursiveMethod` base layer, from the source: at depth 0 it returns the
result; otherwise it calls the method again on the record set (self-dispatch,
not `Super`), which re-enters the outermost layer at depth - 1. -/
def recursiveMethodBase (depth : Nat) (result : String) : String × Nat :=
  match depth with
  | 0 => (result, 0)
  | d + 1 => recursiveMethodCall d (result ++ ", recursion " ++ toString (d + 1))
termination_by (depth, 0)

end

theorem recursiveMethodBase_extCount (d : Nat) :
    ∀ r : String, (recursiveMethodBase d r).2 = d := by
  induction d with
  | zero =>
    intro r
    rw [recursiveMethodBase]
  | succ n ih =>
    intro r
    rw [recursiveMethodBase, recursiveMethodCall]
    simp [ih]

/-- C8: a layer calling the method again on a record set re-enters the
outermost layer of the stack, so the extension layer applies to each recursive
step: an invocation at depth d executes the extension layer exactly d + 1
times (once per recursion depth d, d-1, ..., 0), and the depth-3 invocation
produces the fully nested bracketing of every recursive step. -/
theorem c8_recursive_self_dispatch (d : Nat) (r : String) :
    (recursiveMethodCall d r).2 = d + 1 ∧
    recursiveMethodCall 3 "Start" =
      ("> > > > Start <, recursion 3 <, recursion 2 <, recursion 1 <", 4) := by
  constructor
  · rw [recursiveMethodCall]
    simp [recursiveMethodBase_extCount]
  · simp only [recursiveMethodCall, recursiveMethodBase]
    rfl

/-- The `Tag` model fields read by its constraint methods, from the test
module (`Name`, `Description`, `Rate`; the float32 `Rate` is modelled as a
rational). -/
structure TagData where
  name : String
  description : String
  rate : Rat
  deriving DecidableEq, Repr

/-- The error raised when a constraint method panics. -/
inductive ConstraintError where
  | rateOutOfRange
  | nameEqualsDescription
  deriving DecidableEq, Repr

/-- The constraint method registered under the name `CheckNameDescription` in
the test module, whose body checks that the rate is between 0 and 10. -/
def checkNameDescription (t : TagData) : Except ConstraintError Unit :=
  if t.rate < 0 ∨ t.rate > 10 then Except.error ConstraintError.rateOutOfRange
  else Except.ok ()

/-- The constraint method registered under the name `CheckRate` in the test
module, whose body checks that the tag's name and description differ. -/
def checkRate (t : TagData) : Except ConstraintError Unit :=
  if t.name == t.description then
    Except.error ConstraintError.nameEqualsDescription
  else Except.ok ()

/-- Modelled from the spec: `Create` on the `Tag` model runs the model's
constraint methods on the record being created (aborting with
`ConstraintError` if one panics) and inserts the record on success. -/
def createTag (db : List TagData) (t : TagData) :
    Except ConstraintError (List TagData) :=
  match checkNameDescription t with
  | Except.error e => Except.error e
  | Except.ok _ =>
    match checkRate t with
    | Except.error e => Except.error e
    | Except.ok _ => Except.ok (db ++ [t])

/-- `Search` on the `Tag` model with a `Name.Equals` condition. -/
def searchTagByName (db : List TagData) (n : String) : List TagData :=
  db.filter (fun t => t.name == n)

/-- C9: creating a tag whose `Name` equals its `Description` fails with a
`ConstraintError`; creating a tag whose `Rate` lies outside [0, 10] fails;
creating a tag with `Rate` in range and distinct `Name`/`Description`
succeeds, and the created tag is retrievable by searching `Name.Equals`. -/
theorem c9_tag_constraints (db : List TagData) (name desc : String) (rate : Rat) :
    (name = desc →
      createTag db ⟨name, desc, rate⟩ =
          Except.error ConstraintError.rateOutOfRange ∨
        createTag db ⟨name, desc, rate⟩ =
          Except.error ConstraintError.nameEqualsDescription) ∧
    (rate < 0 ∨ rate > 10 →
      createTag db ⟨name, desc, rate⟩ =
        Except.error ConstraintError.rateOutOfRange) ∧
    (0 ≤ rate → rate ≤ 10 → name ≠ desc →
      createTag db ⟨name, desc, rate⟩ = Except.ok (db ++ [⟨name, desc, rate⟩]) ∧
        (⟨name, desc, rate⟩ : TagData) ∈
          searchTagByName (db ++ [⟨name, desc, rate⟩]) name) := by
  refine ⟨?_, ?_, ?_⟩
  · intro heq
    by_cases hrate : rate < 0 ∨ rate > 10
    · exact Or.inl (by simp [createTag, checkNameDescription, hrate])
    · refine Or.inr ?_
      simp [createTag, checkNameDescription, checkRate, hrate, heq]
  · intro hrate
    simp [createTag, checkNameDescription, hrate]
  · intro h0 h10 hne
    have hrate : ¬(rate < 0 ∨ rate > 10) := by
      push_neg
      exact ⟨h0, h10⟩
    constructor
    · simp [createTag, checkNameDescription, checkRate, hrate, hne]
    · refine List.mem_filter.mpr ⟨List.mem_append_right db (List.mem_singleton.mpr rfl), ?_⟩
      simp

/-- Concrete witness for C9, mirroring the creation tests: `Tag1`/`Tag1`
fails, rate 12 fails, rate -3 fails, and a tag with rate 5 and distinct
name/description is created and found by name. -/
theorem c9_tag_constraints_witness :
    (createTag [] ⟨"Tag1", "Tag1", 0⟩ =
          Except.error ConstraintError.rateOutOfRange ∨
        createTag [] ⟨"Tag1", "Tag1", 0⟩ =
          Except.error ConstraintError.nameEqualsDescription) ∧
      createTag [] ⟨"Tag2", "", 12⟩ =
        Except.error ConstraintError.rateOutOfRange ∧
      createTag [] ⟨"Tag2", "Tag2bis", -3⟩ =
        Except.error ConstraintError.rateOutOfRange ∧
      (createTag [] ⟨"Tag3", "Tag3 description", 5⟩ =
          Except.ok [⟨"Tag3", "Tag3 description", 5⟩] ∧
        (⟨"Tag3", "Tag3 description", 5⟩ : TagData) ∈
          searchTagByName [⟨"Tag3", "Tag3 description", 5⟩] "Tag3") := by
  refine ⟨(c9_tag_constraints [] "Tag1" "Tag1" 0).1 rfl, ?_, ?_, ?_⟩
  · exact (c9_tag_constraints [] "Tag2" "" 12).2.1 (Or.inr (by norm_num))
  · exact (c9_tag_constraints [] "Tag2" "Tag2bis" (-3)).2.1 (Or.inl (by norm_num))
  · have h := (c9_tag_constraints [] "Tag3" "Tag3 description" 5).2.2
      (by norm_num) (by norm_num) (by decide)
    simpa using h

/-- A Go map reference: the heap of allocated context maps; `tools.Context`
values are references into this store. -/
structure Heap where
  cells : List (List (String × Val))
  deriving DecidableEq, Repr

/-- Dereference a context map. -/
def Heap.get (h : Heap) (r : Nat) : List (String × Val) :=
  h.cells[r]?.getD []

/-- Write through a context map reference. -/
def Heap.set (h : Heap) (r : Nat) (m : List (String × Val)) : Heap :=
  ⟨h.cells.set r m⟩

/-- The `Environment` of the source: a transaction handle, the acting user id
and the context map (a Go map, hence a reference value). -/
structure Environment where
  cr : Nat
  uid : Int
  context : Nat
  deriving DecidableEq, Repr

/-- The Go `for key, value := range ctx { newCtx[key] = value }` overlay loop:
each of `add`'s entries is written into `base`. -/
def mapOverlay (base add : List (String × Val)) : List (String × Val) :=
  add.foldl (fun m kv => mapSet m kv.1 kv.2) base

/-- `Environment.WithContext` from the source.  With `replace` the new
environment simply takes the given context.  Otherwise `newCtx := env.context`
copies the map reference, the range loop writes ctx's entries through that
shared reference, and `NewEnvironment(env.cr, env.uid, newCtx)` builds the
result on the same map. -/
def Environment.withContext (h : Heap) (env : Environment) (ctxRef : Nat)
    (replace : Bool) : Heap × Environment :=
  if replace then (h, ⟨env.cr, env.uid, ctxRef⟩)
  else
    let newCtx := env.context
    let h2 := h.set newCtx (mapOverlay (h.get newCtx) (h.get ctxRef))
    (h2, ⟨env.cr, env.uid, newCtx⟩)

/-- C10 counterexample: with an environment whose context map is empty and an
argument context holding `lang = "fr"`, calling `WithContext` (without
replace) changes the receiver's own context map — the entries are written into
the very map the receiver holds, so the receiver is not left unchanged. -/
theorem c10_withContext_counterexample :
    Heap.get
        (Environment.withContext ⟨[[], [("lang", Val.str "fr")]]⟩ ⟨0, 2, 0⟩ 1
          false).1
        (Environment.context ⟨0, 2, 0⟩) ≠
      Heap.get ⟨[[], [("lang", Val.str "fr")]]⟩ (Environment.context ⟨0, 2, 0⟩) := by
  decide

theorem lookup_eq_none_keys (k : String) (m : List (String × Val))
    (h : k ∉ m.map Prod.fst) : m.lookup k = none := by
  rw [List.lookup_eq_none_iff]
  intro p hp
  simp only [bne_iff_ne, ne_eq]
  intro hk
  exact h (hk ▸ List.mem_map_of_mem Prod.fst hp)

theorem lookup_map_overwrite (k : String) (v : Val) :
    ∀ m : List (String × Val), (m.lookup k).isSome = true →
      (m.map (fun p => match p.1 == k with | true => (k, v) | false => p)).lookup k =
        some v := by
  intro m
  induction m with
  | nil => intro h; simp at h
  | cons hd tl ih =>
    obtain ⟨a, b⟩ := hd
    intro h
    by_cases hk : k = a
    · subst hk
      simp [List.lookup]
    · have h1 : (k == a) = false := by simp [hk]
      have h2 : (a == k) = false := by simp [Ne.symm hk]
      have h3 : (tl.lookup k).isSome = true := by
        rw [List.lookup_cons] at h
        simpa [h1] using h
      simpa [List.lookup, h1, h2] using ih h3

theorem lookup_map_overwrite_ne (k k2 : String) (v : Val) (hne : k2 ≠ k) :
    ∀ m : List (String × Val),
      (m.map (fun p => match p.1 == k with | true => (k, v) | false => p)).lookup k2 =
        m.lookup k2 := by
  intro m
  induction m with
  | nil => rfl
  | cons hd tl ih =>
    obtain ⟨a, b⟩ := hd
    by_cases hk : a = k
    · subst hk
      have h1 : (k2 == a) = false := by simp [hne]
      simpa [List.lookup, h1] using ih
    · have h2 : (a == k) = false := by simp [hk]
      by_cases hk2 : k2 = a
      · subst hk2
        simp [List.lookup, h2]
      · have h3 : (k2 == a) = false := by simp [hk2]
        simpa [List.lookup, h2, h3] using ih

theorem lookup_mapSet_self (k : String) (v : Val) (m : List (String × Val)) :
    (mapSet m k v).lookup k = some v := by
  rw [mapSet]
  split
  case isTrue hsome => exact lookup_map_overwrite k v m hsome
  case isFalse hnone =>
    have hlk : m.lookup k = none := by
      cases hcase : m.lookup k with
      | none => rfl
      | some v2 => rw [hcase] at hnone; simp at hnone
    rw [List.lookup_append, hlk]
    simp

theorem lookup_mapSet_ne (k k2 : String) (v : Val) (hne : k2 ≠ k)
    (m : List (String × Val)) : (mapSet m k v).lookup k2 = m.lookup k2 := by
  have hk2k : (k2 == k) = false := by simp [hne]
  rw [mapSet]
  split
  case isTrue hsome => exact lookup_map_overwrite_ne k k2 v hne m
  case isFalse hnone =>
    rw [List.lookup_append]
    have hsingle : ([(k, v)] : List (String × Val)).lookup k2 = none := by
      simp [List.lookup, hk2k]
    rw [hsingle]
    cases m.lookup k2 <;> rfl

theorem lookup_mapOverlay (k : String) :
    ∀ (add base : List (String × Val)), (add.map Prod.fst).Nodup →
      (mapOverlay base add).lookup k =
        if (add.lookup k).isSome then add.lookup k else base.lookup k := by
  intro add
  induction add with
  | nil =>
    intro base _
    simp [mapOverlay]
  | cons hd tl ih =>
    intro base hnodup
    obtain ⟨a, b⟩ := hd
    rw [List.map_cons, List.nodup_cons] at hnodup
    have hstep : mapOverlay base ((a, b) :: tl) = mapOverlay (mapSet base a b) tl := rfl
    rw [hstep, ih (mapSet base a b) hnodup.2]
    by_cases hk : k = a
    · subst hk
      have htl : tl.lookup k = none := lookup_eq_none_keys k tl hnodup.1
      have hhd : (((k, b) :: tl).lookup k) = some b := List.lookup_cons_self
      rw [htl, hhd]
      simp only [Option.isSome_none, Bool.false_eq_true, if_false, Option.isSome_some, if_true]
      exact lookup_mapSet_self k b base
    · have h1 : (k == a) = false := by simp [hk]
      have hhd : (((a, b) :: tl).lookup k) = tl.lookup k := by
        rw [List.lookup_cons]
        simp [h1]
      rw [hhd, lookup_mapSet_ne a k b hk base]

/-- C10 amended: `WithContext` without replace returns an Environment whose
context holds E's entries overlaid with ctx's entries and preserves E's
transaction and user id — but the overlaid entries are written through E's own
context map reference, which the returned Environment shares, so the
receiver's context map is mutated rather than left unchanged. -/
theorem c10_withContext_amended (h : Heap) (env : Environment) (ctxRef : Nat)
    (hnodup : ((h.get ctxRef).map Prod.fst).Nodup) :
    (Environment.withContext h env ctxRef false).2.cr = env.cr ∧
    (Environment.withContext h env ctxRef false).2.uid = env.uid ∧
    (Environment.withContext h env ctxRef false).2.context = env.context ∧
    (env.context < h.cells.length →
      ∀ k : String,
        (Heap.get (Environment.withContext h env ctxRef false).1
              (Environment.withContext h env ctxRef false).2.context).lookup k =
          if ((h.get ctxRef).lookup k).isSome then (h.get ctxRef).lookup k
          else (h.get env.context).lookup k) ∧
    (env.context < h.cells.length →
      Heap.get (Environment.withContext h env ctxRef false).1 env.context =
        mapOverlay (h.get env.context) (h.get ctxRef)) := by
  refine ⟨rfl, rfl, rfl, ?_, ?_⟩
  · intro hlt k
    have hget : Heap.get (Environment.withContext h env ctxRef false).1 env.context =
        mapOverlay (h.get env.context) (h.get ctxRef) := by
      show Heap.get (h.set env.context _) env.context = _
      rw [Heap.get, Heap.set]
      rw [List.getElem?_set_self hlt]
      rfl
    show (Heap.get (Environment.withContext h env ctxRef false).1 env.context).lookup k = _
    rw [hget]
    exact lookup_mapOverlay k (h.get ctxRef) (h.get env.context) hnodup
  · intro hlt
    show Heap.get (h.set env.context _) env.context = _
    rw [Heap.get, Heap.set]
    rw [List.getElem?_set_self hlt]
    rfl

/-- Concrete witness for the amended C10, at the counterexample input: the
transaction and user id are preserved, the returned context is the overlay,
and the receiver's map was written through. -/
theorem c10_withContext_amended_witness :
    (Environment.withContext ⟨[[], [("lang", Val.str "fr")]]⟩ ⟨0, 2, 0⟩ 1
          false).2.cr = (0 : Nat) ∧
      (Environment.withContext ⟨[[], [("lang", Val.str "fr")]]⟩ ⟨0, 2, 0⟩ 1
            false).2.uid = (2 : Int) ∧
      Heap.get
          (Environment.withContext ⟨[[], [("lang", Val.str "fr")]]⟩ ⟨0, 2, 0⟩ 1
            false).1 0 =
        mapOverlay (Heap.get ⟨[[], [("lang", Val.str "fr")]]⟩ 0)
          (Heap.get ⟨[[], [("lang", Val.str "fr")]]⟩ 1) := by
  have h := c10_withContext_amended ⟨[[], [("lang", Val.str "fr")]]⟩ ⟨0, 2, 0⟩ 1
    (by decide)
  exact ⟨h.1, h.2.1, h.2.2.2.2 (by decide)⟩

/-- The per-model metadata consulted by `Onchange` for each field: its kind,
and its optional inverse, onchange/compute, warning and filters hooks (the
source resolves these by method name; here each hook is the resolved function
acting on the sandbox pseudo-record). -/
structure OnchangeMeta where
  kinds : String → FieldKind
  inverse : String → Option (Val → List (String × Val) → List (String × Val))
  onChangeOf : String → Option (List (String × Val) → List (String × Val))
  warningOf : String → Option (List (String × Val) → String)
  filtersOf : String → Option (List (String × Val) → List (String × Cond))

/-- The arguments of `Onchange`: the submitted pseudo-record, the changed
field names to process, and the fields having a non-empty entry in
`params.Onchange`. -/
structure OnchangeParamsM where
  values : List (String × Val)
  fields : List String
  onchangeKeys : List String

/-- The result of `Onchange`: the modified values, the joined warnings and the
merged domain filters. -/
structure OnchangeResultM where
  value : List (String × Val)
  warning : String
  filters : List (String × Cond)

/-- Insert or overwrite a key in a filters map (`filters[k] = v`). -/
def filtersSet (m : List (String × Cond)) (k : String) (v : Cond) :
    List (String × Cond) :=
  if (m.lookup k).isSome then
    m.map (fun p => match p.1 == k with | true => (k, v) | false => p)
  else m ++ [(k, v)]

/-- The `for k, v := range ff { filters[k] = v }` merge of the source. -/
def mergeFilters (fs newFs : List (String × Cond)) : List (String × Cond) :=
  newFs.foldl (fun acc kv => filtersSet acc kv.1 kv.2) fs

theorem filter_notContains_cons_eq (keys done : List String) (f : String)
    (hf : f ∉ keys) :
    keys.filter (fun g => !((f :: done).contains g)) =
      keys.filter (fun g => !(done.contains g)) := by
  apply List.filter_congr
  intro g hg
  have hne : g ≠ f := fun h => hf (h ▸ hg)
  simp [List.contains, List.elem_eq_mem, List.mem_cons, hne]

theorem filter_notContains_mono (t done : List String) (f : String) :
    (t.filter (fun g => !((f :: done).contains g))).length ≤
      (t.filter (fun g => !(done.contains g))).length := by
  apply List.Sublist.length_le
  apply List.monotone_filter_right
  intro g hg
  have hg2 : ¬(g = f ∨ g ∈ done) := by
    simpa [List.contains, List.elem_eq_mem] using hg
  have hgoal : g ∉ done := fun h => hg2 (Or.inr h)
  simpa [List.contains, List.elem_eq_mem] using hgoal

theorem filter_notContains_cons_lt (keys done : List String) (f : String)
    (hf : f ∈ keys) (hd : f ∉ done) :
    (keys.filter (fun g => !((f :: done).contains g))).length <
      (keys.filter (fun g => !(done.contains g))).length := by
  induction keys with
  | nil => simp at hf
  | cons a t ih =>
    by_cases haf : a = f
    · subst haf
      have h1 : (!((a :: done).contains a)) = false := by
        simp [List.contains, List.elem_eq_mem]
      have h2 : (!(done.contains a)) = true := by
        simp [List.contains, List.elem_eq_mem, hd]
      rw [List.filter_cons, List.filter_cons, h1, h2]
      simp only [Bool.false_eq_true, if_false, if_true]
      exact Nat.lt_succ_of_le (filter_notContains_mono t done a)
    · have hft : f ∈ t := by
        rcases List.mem_cons.mp hf with h | h
        · exact absurd h.symm haf
        · exact h
      have hhead : (!((f :: done).contains a)) = (!(done.contains a)) := by
        simp [List.contains, List.elem_eq_mem, List.mem_cons, haf]
      rw [List.filter_cons, List.filter_cons, hhead]
      by_cases hcase : (!(done.contains a)) = true
      · rw [hcase]
        simp only [if_true, List.length_cons]
        exact Nat.succ_lt_succ (ih hft)
      · have hfalse : (!(done.contains a)) = false := by
          simpa using hcase
        rw [hfalse]
        simp only [Bool.false_eq_true, if_false]
        exact ih hft

/-- The onchange processing loop of the source: pop a field from `todo`; skip
it if already done; mark it done; if it has no entry in `params.Onchange`,
continue; otherwise run its onchange (or compute) hook, write the returned
values into the sandbox record and enqueue their fields when not done, then
collect the field's warning and filters. -/
def ocLoop (meta : OnchangeMeta) (keys : List String) :
    List String → List String → List (String × Val) → List String →
      List (String × Cond) →
      List (String × Val) × List String × List (String × Cond)
  | [], _, st, ws, fs => (st, ws, fs)
  | f :: rest, done, st, ws, fs =>
    if hdone : f ∈ done then
      ocLoop meta keys rest done st ws fs
    else
      if hkey : f ∈ keys then
        let done2 := f :: done
        let stTodo : List (String × Val) × List String :=
          match meta.onChangeOf f with
          | none => (st, rest)
          | some hook =>
            let vals := hook st
            (mapOverlay st vals,
              rest ++ (vals.map Prod.fst).filter (fun g => !(done2.contains g)))
        let st2 := stTodo.1
        let ws2 :=
          match meta.warningOf f with
          | none => ws
          | some wh =>
            let w := wh st2
            match w == "" with
            | true => ws
            | false => ws ++ [w]
        let fs2 :=
          match meta.filtersOf f with
          | none => fs
          | some fh => mergeFilters fs (fh st2)
        ocLoop meta keys stTodo.2 done2 st2 ws2 fs2
      else
        ocLoop meta keys rest (f :: done) st ws fs
termination_by todo done _ _ _ =>
  ((keys.filter (fun g => !(done.contains g))).length, todo.length)
decreasing_by
  · apply Prod.Lex.right
    simp
  · apply Prod.Lex.left
    exact filter_notContains_cons_lt keys done f hkey hdone
  · rw [filter_notContains_cons_eq keys done f hkey]
    apply Prod.Lex.right
    simp

/-- The submitted values as seen inside `Onchange`: when the record set is
non-empty, the source sets the `ID` of its first record into the shared data
map (`data.Set(ID, rc.ids[0])` writes through to `values`). -/
def updateValuesWithID (rcIds : List Int) (values : List (String × Val)) :
    List (String × Val) :=
  match rcIds with
  | [] => values
  | i :: _ => mapSet values "id" (Val.int i)

/-- The stored values of a database row (empty when the id has no row). -/
def dbVals (db : List Rec) (i : Int) : List (String × Val) :=
  match db.find? (fun r => r.id == i) with
  | some r => r.vals
  | none => []

/-- The simulated part of `Onchange`, run inside `SimulateInNewEnvironment`
(modelled from the spec: the simulated transaction is always rolled back, so
the database is never modified).  It builds the sandbox pseudo-record — the
existing row updated with the submitted data when the record set is non-empty,
a new in-memory record otherwise — runs the inverse hooks of the submitted
fields, then processes the changed fields through `ocLoop`.  Returns the final
sandbox record, the collected warnings and the merged filters. -/
def onchangeSim (db : List Rec) (meta : OnchangeMeta) (rcIds : List Int)
    (p : OnchangeParamsM) :
    List (String × Val) × List String × List (String × Cond) :=
  let values := updateValuesWithID rcIds p.values
  let initState :=
    match rcIds with
    | [] => values
    | i :: _ => mapOverlay (dbVals db i) values
  let st0 := values.foldl
    (fun st kv =>
      match meta.inverse kv.1 with
      | none => st
      | some inv => inv kv.2 st) initState
  ocLoop meta p.onchangeKeys p.fields [] st0 [] []

/-- `rs.Get` on the sandbox record: cached value, or the field's zero value. -/
def getSandbox (meta : OnchangeMeta) (st : List (String × Val)) (f : String) :
    Val :=
  (st.lookup f).getD (zeroVal (meta.kinds f))

/-- The ids denoted by a value when converted to a record set. -/
def valIds : Val → List Int
  | Val.ids l => l
  | Val.int i => [i]
  | _ => []

/-- `RecordSet.Equals` on converted values: same ids as sets. -/
def recordSetEquals (a b : List Int) : Bool :=
  a.all (fun i => b.contains i) && b.all (fun i => a.contains i)

/-- Whether a field's resolved value differs from the submitted one, following
the collect loop of the source: relation-typed fields are compared as record
sets via `convertToRecordSet`/`Equals`, other fields by value equality. -/
def onchangeDiffers (meta : OnchangeMeta) (f : String) (old new : Val) : Bool :=
  match meta.kinds f with
  | FieldKind.relation => !(recordSetEquals (valIds old) (valIds new))
  | _ => !(old == new)

/-- The collect loop of the source: for every submitted field, read its
resolved value from the sandbox record, and record it in the result only when
it differs from the submitted value. -/
def collectModified (meta : OnchangeMeta) (values final : List (String × Val)) :
    List (String × Val) :=
  values.foldl
    (fun acc kv =>
      let newVal := getSandbox meta final kv.1
      match onchangeDiffers meta kv.1 kv.2 newVal with
      | true => mapSet acc kv.1 newVal
      | false => acc) []

/-- `ModelData.Unset`: drop a field from a data map. -/
def unsetField (m : List (String × Val)) (k : String) : List (String × Val) :=
  m.filter (fun p => !(p.1 == k))

/-- `Onchange` from the source: run the sandboxed simulation (rolled back: the
database is returned unchanged), collect the submitted fields whose resolved
value differs, drop `ID`, and return the diffs with the joined warnings and
the merged filters. -/
def Onchange (db : List Rec) (meta : OnchangeMeta) (rcIds : List Int)
    (p : OnchangeParamsM) : List Rec × OnchangeResultM :=
  let sim := onchangeSim db meta rcIds p
  let values := updateValuesWithID rcIds p.values
  let retValues := collectModified meta values sim.1
  (db, ⟨unsetField retValues "id", String.intercalate "\n\n" sim.2.1, sim.2.2⟩)

theorem lookup_unsetField_ne (m : List (String × Val)) (k f : String)
    (hne : f ≠ k) : (unsetField m k).lookup f = m.lookup f := by
  induction m with
  | nil => rfl
  | cons hd tl ih =>
    obtain ⟨a, b⟩ := hd
    rw [unsetField, List.filter_cons]
    by_cases hak : a = k
    · have h1 : (!((a, b).1 == k)) = false := by simp [hak]
      have h2 : (f == a) = false := by simp [hak ▸ hne]
      rw [h1]
      simp only [Bool.false_eq_true, if_false]
      rw [List.lookup_cons]
      simp only [h2]
      exact ih
    · have h1 : (!((a, b).1 == k)) = true := by simp [hak]
      rw [h1]
      simp only [if_true]
      by_cases hfa : f = a
      · subst hfa
        simp [List.lookup]
      · have h2 : (f == a) = false := by simp [hfa]
        rw [List.lookup_cons, List.lookup_cons]
        simp only [h2]
        exact ih

theorem lookup_unsetField_self (m : List (String × Val)) (k : String) :
    (unsetField m k).lookup k = none := by
  rw [List.lookup_eq_none_iff]
  intro p hp
  have h0 := List.of_mem_filter hp
  have h1 : ¬(p.1 = k) := by simpa using h0
  have h2 : k ≠ p.1 := fun h => h1 h.symm
  simpa [bne_iff_ne] using h2

theorem keys_mapSet (m : List (String × Val)) (k : String) (v : Val) :
    (mapSet m k v).map Prod.fst = m.map Prod.fst ∨
      ((mapSet m k v).map Prod.fst = m.map Prod.fst ++ [k] ∧
        k ∉ m.map Prod.fst) := by
  rw [mapSet]
  split
  case isTrue hsome =>
    left
    rw [List.map_map]
    apply List.map_congr_left
    intro p hp
    cases hb : p.1 == k with
    | true =>
      have hpk : p.1 = k := by simpa using hb
      simp only [Function.comp_apply, hb]
      exact hpk.symm
    | false =>
      simp only [Function.comp_apply, hb]
  case isFalse hnone =>
    right
    refine ⟨by simp, ?_⟩
    intro hmem
    obtain ⟨p, hp, hpk⟩ := List.mem_map.mp hmem
    have : (m.lookup k).isSome = true :=
      List.lookup_isSome_iff.mpr ⟨p, hp, by simp [hpk]⟩
    exact hnone this

theorem keys_nodup_mapSet (m : List (String × Val)) (k : String) (v : Val)
    (h : (m.map Prod.fst).Nodup) : ((mapSet m k v).map Prod.fst).Nodup := by
  rcases keys_mapSet m k v with heq | ⟨heq, hnot⟩
  · rwa [heq]
  · rw [heq]
    simp [List.nodup_append, h, hnot]

theorem lookup_collect_fold (meta : OnchangeMeta) (final : List (String × Val)) :
    ∀ (values acc : List (String × Val)), (values.map Prod.fst).Nodup →
      (∀ g ∈ values.map Prod.fst, acc.lookup g = none) →
      ∀ f : String,
        (values.foldl
          (fun acc2 kv =>
            let newVal := getSandbox meta final kv.1
            match onchangeDiffers meta kv.1 kv.2 newVal with
            | true => mapSet acc2 kv.1 newVal
            | false => acc2) acc).lookup f =
        (match values.lookup f with
         | none => acc.lookup f
         | some v =>
           match onchangeDiffers meta f v (getSandbox meta final f) with
           | true => some (getSandbox meta final f)
           | false => none) := by
  intro values
  induction values with
  | nil =>
    intro acc _ _ f
    rfl
  | cons hd tl ih =>
    intro acc hnodup hbase f
    obtain ⟨a, v⟩ := hd
    rw [List.map_cons, List.nodup_cons] at hnodup
    have hbasea : acc.lookup a = none := hbase a (by simp)
    rw [List.foldl_cons]
    set acc2 := (fun acc2 kv =>
      let newVal := getSandbox meta final kv.1
      match onchangeDiffers meta kv.1 kv.2 newVal with
      | true => mapSet acc2 kv.1 newVal
      | false => acc2) acc (a, v) with hacc2
    have hbase2 : ∀ g ∈ tl.map Prod.fst, acc2.lookup g = none := by
      intro g hg
      have hga : g ≠ a := fun h => hnodup.1 (h ▸ hg)
      rw [hacc2]
      cases hdiff : onchangeDiffers meta a v (getSandbox meta final a) with
      | true =>
        simp only [hdiff]
        rw [lookup_mapSet_ne a g (getSandbox meta final a) hga acc]
        exact hbase g (by simp [hg])
      | false =>
        simp only [hdiff]
        exact hbase g (by simp [hg])
    rw [ih acc2 hnodup.2 hbase2 f]
    by_cases hfa : f = a
    · subst hfa
      have htl : tl.lookup f = none :=
        lookup_eq_none_keys f tl hnodup.1
      rw [htl, List.lookup_cons]
      simp only [beq_self_eq_true]
      rw [hacc2]
      cases hdiff : onchangeDiffers meta f v (getSandbox meta final f) with
      | true =>
        simp only [hdiff]
        exact lookup_mapSet_self f (getSandbox meta final f) acc
      | false =>
        simp only [hdiff]
        exact hbasea
    · have h2 : (f == a) = false := by simp [hfa]
      rw [List.lookup_cons]
      simp only [h2]
      cases htl : tl.lookup f with
      | none =>
        rw [hacc2]
        cases hdiff : onchangeDiffers meta a v (getSandbox meta final a) with
        | true =>
          simp only [hdiff]
          exact lookup_mapSet_ne a f (getSandbox meta final a) hfa acc
        | false =>
          simp only [hdiff]
      | some v2 => rfl

theorem lookup_collectModified (meta : OnchangeMeta)
    (values final : List (String × Val)) (hnodup : (values.map Prod.fst).Nodup)
    (f : String) :
    (collectModified meta values final).lookup f =
      (match values.lookup f with
       | none => none
       | some v =>
         match onchangeDiffers meta f v (getSandbox meta final f) with
         | true => some (getSandbox meta final f)
         | false => none) := by
  rw [collectModified, lookup_collect_fold meta final values [] hnodup
    (fun g _ => rfl) f]
  cases values.lookup f <;> rfl

/-- C6: `Onchange` runs its hooks inside a sandboxed simulated transaction
that is rolled back, so the database is unchanged (no data committed); the
returned `Value` contains exactly those submitted fields whose resolved value
in the sandbox after the hooks differs from the submitted value — fields whose
resolved value equals the submitted value (and the record id) are absent — and
the result carries the collected warnings and merged domain filters. -/
theorem c6_onchange_sandbox_and_diffs (db : List Rec) (meta : OnchangeMeta)
    (rcIds : List Int) (p : OnchangeParamsM)
    (hnodup : (p.values.map Prod.fst).Nodup) :
    (Onchange db meta rcIds p).1 = db ∧
    (Onchange db meta rcIds p).2.value.lookup "id" = none ∧
    (∀ f : String, f ≠ "id" →
      (Onchange db meta rcIds p).2.value.lookup f =
        (match p.values.lookup f with
         | none => none
         | some v =>
           match onchangeDiffers meta f v
               (getSandbox meta (onchangeSim db meta rcIds p).1 f) with
           | true => some (getSandbox meta (onchangeSim db meta rcIds p).1 f)
           | false => none)) ∧
    (Onchange db meta rcIds p).2.warning =
      String.intercalate "\n\n" (onchangeSim db meta rcIds p).2.1 ∧
    (Onchange db meta rcIds p).2.filters = (onchangeSim db meta rcIds p).2.2 := by
  have hvnodup : ((updateValuesWithID rcIds p.values).map Prod.fst).Nodup := by
    cases rcIds with
    | nil => exact hnodup
    | cons i rest => exact keys_nodup_mapSet p.values "id" (Val.int i) hnodup
  refine ⟨rfl, ?_, ?_, rfl, rfl⟩
  · exact lookup_unsetField_self _ "id"
  · intro f hf
    show (unsetField (collectModified meta (updateValuesWithID rcIds p.values)
        (onchangeSim db meta rcIds p).1) "id").lookup f = _
    rw [lookup_unsetField_ne _ "id" f hf]
    rw [lookup_collectModified meta _ _ hvnodup f]
    have hv : (updateValuesWithID rcIds p.values).lookup f = p.values.lookup f := by
      cases rcIds with
      | nil => rfl
      | cons i rest => exact lookup_mapSet_ne "id" f (Val.int i) hf p.values
    rw [hv]

/-- Field metadata mirroring the `User.OnChangeName` setup of the test module:
changing `Name` recomputes `DecoratedName` as the prefixed user name. -/
def onchangeWitnessMeta : OnchangeMeta where
  kinds := fun _ => FieldKind.char
  inverse := fun _ => none
  onChangeOf := fun f =>
    match f with
    | "Name" => some (fun st =>
        [("DecoratedName", Val.str ("User: " ++
          (match st.lookup "Name" with
           | some (Val.str s) => s
           | _ => "")))])
    | _ => none
  warningOf := fun _ => none
  filtersOf := fun _ => none

/-- Concrete witness for C6, in the shape of the user `OnChangeName` test
setup: submitting `Name = "John"` with a hook that fills `DecoratedName`;
`Name` resolves unchanged so is absent from the result, `DecoratedName`
differs so is present, and the database is untouched. -/
theorem c6_onchange_sandbox_and_diffs_witness :
    (Onchange [] onchangeWitnessMeta []
          ⟨[("Name", Val.str "John"), ("DecoratedName", Val.str "")],
            ["Name"], ["Name"]⟩).1 = [] ∧
      (Onchange [] onchangeWitnessMeta []
            ⟨[("Name", Val.str "John"), ("DecoratedName", Val.str "")],
              ["Name"], ["Name"]⟩).2.value.lookup "Name" = none ∧
      (Onchange [] onchangeWitnessMeta []
            ⟨[("Name", Val.str "John"), ("DecoratedName", Val.str "")],
              ["Name"], ["Name"]⟩).2.value.lookup "DecoratedName" =
        some (Val.str "User: John") := by
  have h := c6_onchange_sandbox_and_diffs [] onchangeWitnessMeta []
    ⟨[("Name", Val.str "John"), ("DecoratedName", Val.str "")],
      ["Name"], ["Name"]⟩ (by decide)
  have hsim : (onchangeSim [] onchangeWitnessMeta []
      ⟨[("Name", Val.str "John"), ("DecoratedName", Val.str "")],
        ["Name"], ["Name"]⟩).1 =
      [("Name", Val.str "John"), ("DecoratedName", Val.str "User: John")] := by
    show (ocLoop onchangeWitnessMeta ["Name"] ["Name"] []
        [("Name", Val.str "John"), ("DecoratedName", Val.str "")] [] []).1 = _
    rw [ocLoop]
    rw [dif_neg (show ¬(("Name" : String) ∈ ([] : List String)) from by decide)]
    rw [dif_pos (show ("Name" : String) ∈ (["Name"] : List String) from by decide)]
    show (ocLoop onchangeWitnessMeta ["Name"] ["DecoratedName"] ["Name"]
        [("Name", Val.str "John"), ("DecoratedName", Val.str "User: John")]
        [] []).1 = _
    rw [ocLoop]
    rw [dif_neg (show ¬(("DecoratedName" : String) ∈ (["Name"] : List String))
      from by decide)]
    rw [dif_neg (show ¬(("DecoratedName" : String) ∈ (["Name"] : List String))
      from by decide)]
    show (ocLoop onchangeWitnessMeta ["Name"] [] ["DecoratedName", "Name"]
        [("Name", Val.str "John"), ("DecoratedName", Val.str "User: John")]
        [] []).1 = _
    rw [ocLoop]
  refine ⟨h.1, ?_, ?_⟩
  · rw [h.2.2.1 "Name" (by decide)]
    rw [hsim]
    rfl
  · rw [h.2.2.1 "DecoratedName" (by decide)]
    rw [hsim]
    rfl

end Hexya
